import Mathlib

/-!
Verification of the steemtools core: a shallow embedding of the account-history
replayer (`Account.virtual_op_count`, `Account.history`, `Account.history2` in
`megaphone/base.py`), of the reward converter arithmetic (`Converter` in
`megaphone/base.py`), and of the price aggregation and symbol mapping logic
(`Ticker` in `megaphone/ticker.py`), together with proofs of the specified
properties.

Remote collaborators (the ledger RPC and the HTTP exchanges) are modelled as
explicit inputs: an account's operation log is a `Ledger` value, the list of
per-exchange HTTP outcomes is passed to `ticker_price` directly, and the cached
chain constant `steem_per_mvests` is a rational parameter of each converter
function.  Python's `float` arithmetic is embedded as exact arithmetic over `ℚ`
and generator functions as fuelled loops returning `Option` (`none` = the loop
did not terminate within the given fuel).
-/

namespace Steemtools

/-! ## Data model of the history replayer -/

/-- Payload of one account-history item as delivered by the ledger RPC:
`item[1]` in `Account.history`, holding `op = [op_type, op_body]`,
`timestamp` and `trx_id`.  The op body is abstracted to a string. -/
structure OpData where
  op_type : String
  op : String
  timestamp : String
  trx_id : String
deriving DecidableEq

/-- An account's full operation log on the remote ledger: `numOps` operations
carrying the strictly increasing, gap-free indices `0, …, numOps - 1`. -/
structure Ledger where
  numOps : Nat
  opAt : Nat → OpData

/-- Operation record yielded by the replayer — the dictionary built by
`construct_op` inside `Account.history`. -/
structure Operation where
  index : Nat
  trx_id : String
  timestamp : String
  op_type : String
  op : String
deriving DecidableEq

/-- Modelled from the spec: the external ledger RPC
`get_account_history(account, index, limit)` returns the ordered batch of
operations whose indices lie in the window `[index - limit, index]` (the batch
ends at the requested index, inclusive), clamped to the account's existing log
`[0, numOps)`; a negative `index` addresses the most recent operation. -/
def get_account_history (L : Ledger) (idx : Int) (limit : Nat) :
    List (Nat × OpData) :=
  let upper : Int := if idx < 0 then (L.numOps : Int) - 1 else idx
  let lo : Nat := (upper - (limit : Int)).toNat
  let hi1 : Nat := min (upper + 1).toNat L.numOps
  (List.range' lo (hi1 - lo)).map (fun k => (k, L.opAt k))

/-- Embedding of `Account.virtual_op_count`: fetch one item backward from the
tail (`get_account_history(account, -1, 0)[0][0]`) and return its index; an
`IndexError` on an empty result list is caught and turned into `0`. -/
def virtual_op_count (L : Ledger) : Nat :=
  match get_account_history L (-1) 0 with
  | [] => 0
  | item :: _ => item.1

/-- Value of the dynamically typed `filter_by` argument of `Account.history`:
Python `None`, a `str` tag, a `list` of tags, or a `set` of tags. -/
inductive FilterBy where
  | none : FilterBy
  | str : String → FilterBy
  | list : List String → FilterBy
  | set : List String → FilterBy
deriving DecidableEq

/-- Per-item yield decision of `Account.history` (lines 336–345 of
`megaphone/base.py`): `None` yields everything; `type(filter_by) is list`
yields on membership; `type(filter_by) is str` yields on equality.  A Python
`set` matches neither `type(...) is list` nor `type(...) is str`, so no item
is ever yielded for it. -/
def filterYields : FilterBy → String → Bool
  | FilterBy.none, _ => true
  | FilterBy.list tags, op_type => tags.contains op_type
  | FilterBy.str tag, op_type => op_type == tag
  | FilterBy.set _, _ => false

/-- Embedding of the local `construct_op` closure of `Account.history`. -/
def construct_op (index : Nat) (d : OpData) : Operation :=
  { index := index, trx_id := d.trx_id, timestamp := d.timestamp,
    op_type := d.op_type, op := d.op }

/-- Inner `for item in history:` loop of `Account.history` over one fetched
batch.  Returns the operations yielded from this batch together with `true`
when some item hit the `index >= max_index` terminal condition (which stops
the whole traversal before yielding that item). -/
def processBatch (max_index : Nat) (filter_by : FilterBy) :
    List (Nat × OpData) → List Operation × Bool
  | [] => ([], false)
  | item :: rest =>
    if max_index ≤ item.1 then ([], true)
    else
      let r := processBatch max_index filter_by rest
      if filterYields filter_by item.2.op_type then
        (construct_op item.1 item.2 :: r.1, r.2)
      else r

/-- Outer `while True:` loop of `Account.history`, fuelled.  `i` is the batch
cursor; the first iteration (`i == start_index`) requests `limit = batch_size`,
every later one `limit = batch_size - 1`.  The result carries the yielded
operations and the number of `get_account_history` batch fetches issued;
`none` means the loop did not return within `fuel` iterations. -/
def historyLoop (L : Ledger) (filter_by : FilterBy)
    (max_index start_index batch_size : Nat) :
    Nat → Nat → Option (List Operation × Nat)
  | 0, _ => Option.none
  | fuel+1, i =>
    let limit := if i = start_index then batch_size else batch_size - 1
    let batch := get_account_history L (i : Int) limit
    let r := processBatch max_index filter_by batch
    if r.2 then some (r.1, 1)
    else
      match historyLoop L filter_by max_index start_index batch_size fuel
        (i + batch_size) with
      | Option.none => Option.none
      | some (more, fetches) => some (r.1 ++ more, fetches + 1)

/-- Embedding of `Account.history` with the hard-coded `batch_size = 1000`
generalized to a parameter.  `if not max_index: return` produces the empty
sequence with zero batch fetches. -/
def historyB (L : Ledger) (filter_by : FilterBy)
    (start batch_size fuel : Nat) : Option (List Operation × Nat) :=
  let max_index := virtual_op_count L
  if max_index = 0 then some ([], 0)
  else
    historyLoop L filter_by max_index (start + batch_size) batch_size fuel
      (start + batch_size)

/-- Embedding of `Account.history` exactly as written: `batch_size = 1000`. -/
def history (L : Ledger) (filter_by : FilterBy) (start fuel : Nat) :
    Option (List Operation × Nat) :=
  historyB L filter_by start 1000 fuel

/-- Embedding of `Account.history2`: take the most recent `take` elements,
oldest first, by delegating to `history` with
`start_index = max_index - take` clamped below at `0`. -/
def history2 (L : Ledger) (filter_by : FilterBy) (take fuel : Nat) :
    Option (List Operation × Nat) :=
  let max_index : Int := (virtual_op_count L : Int)
  let start_index : Int := max_index - (take : Int)
  let start_index' : Int := if start_index < 0 then 0 else start_index
  history L filter_by start_index'.toNat fuel

/-- Reference sequence of operations an in-range traversal yields: the indices
`w, …, w + len - 1` in increasing order, each filtered by `filter_by`. -/
def yieldSeq (L : Ledger) (filter_by : FilterBy) (w len : Nat) :
    List Operation :=
  (List.range' w len).filterMap fun k =>
    if filterYields filter_by (L.opAt k).op_type then
      some (construct_op k (L.opAt k))
    else Option.none

/-! ## Reward converter (`Converter` in `megaphone/base.py`)

The TTL-cached network constant `steem_per_mvests()` is passed in as the
rational parameter `spm`; everything else is pure arithmetic.  Python's float
division is embedded as exact division on `ℚ`. -/

/-- Embedding of `Converter.vests_to_power`:
`vests * self.steem_per_mvests() / 1e6`. -/
def vests_to_power (spm vests : ℚ) : ℚ := vests * spm / 1000000

/-- Embedding of `Converter.sp_to_vests`:
`sp * 1e6 / self.steem_per_mvests()`. -/
def sp_to_vests (spm sp : ℚ) : ℚ := sp * 1000000 / spm

/-- Python's `int()` applied to a numeric value: truncation toward zero. -/
def pyInt (x : ℚ) : ℤ := if 0 ≤ x then ⌊x⌋ else ⌈x⌉

/-- Embedding of `Converter.sp_to_rshares`.  All `/` operators are Python 3
true division (no truncation); the only integral conversion is the `int()`
around the vesting-share computation. -/
def sp_to_rshares (spm sp voting_power vote_pct : ℚ) : ℚ :=
  let vesting_shares : ℤ := pyInt (sp_to_vests spm sp * 1000000)
  let power : ℚ := voting_power * vote_pct / 10000 / 200 + 1
  power * (vesting_shares : ℚ) / 10000

/-- Reading of `sp_to_rshares` in which every division the reference chain
performs as integer division is integer-truncating, as the claim demands of
the code: `power` and `rshares` are computed with truncating division.
Written only to be compared against `sp_to_rshares` above. -/
def sp_to_rshares_trunc (spm sp : ℚ) (voting_power vote_pct : ℤ) : ℤ :=
  let vesting_shares : ℤ := pyInt (sp_to_vests spm sp * 1000000)
  let power : ℤ := Int.tdiv (Int.tdiv (voting_power * vote_pct) 10000) 200 + 1
  Int.tdiv (power * vesting_shares) 10000

/-- `self.CONTENT_CONSTANT = 2000000000000` set in `Converter.__init__`. -/
def CONTENT_CONSTANT : ℚ := 2000000000000

/-- Embedding of `Converter.rshares_2_weight`:
`(2**64 - 1) * rshares / (2 * CONTENT_CONSTANT + rshares)`. -/
def rshares_2_weight (rshares : ℚ) : ℚ :=
  ((2 : ℚ) ^ 64 - 1) * rshares / (2 * CONTENT_CONSTANT + rshares)

/-! ## Price aggregator (`Ticker` in `megaphone/ticker.py`) -/

/-- Keys of `Ticker.URLS`: the configured exchanges. -/
def URLS_keys : List String :=
  ["btc-e", "bitfinex", "bittrex", "bitstamp", "coinbase", "poloniex"]

/-- Python `str.replace`, char by char: replace every non-overlapping
occurrence of `pat`, scanning left to right.  The `Nat` argument is
structural fuel; one unit is spent per step, and a step consumes at least
one input character, so `fuel = length of the input` always suffices. -/
def pyReplaceAux (pat rep : List Char) : Nat → List Char → List Char
  | 0, s => s
  | _+1, [] => []
  | fuel+1, c :: rest =>
    if pat.isPrefixOf (c :: rest) then
      rep ++ pyReplaceAux pat rep fuel (List.drop (pat.length - 1) rest)
    else c :: pyReplaceAux pat rep fuel rest

/-- Python `s.replace(pat, rep)` for a non-empty pattern. -/
def pyReplace (s pat rep : String) : String :=
  if pat.toList = [] then s
  else String.mk (pyReplaceAux pat.toList rep.toList s.toList.length s.toList)

/-- Python `s.upper()` on the ASCII strings the ticker handles. -/
def pyUpper (s : String) : String := String.mk (s.toList.map Char.toUpper)

/-- Splitting a character list at every occurrence of `sep`. -/
def pySplitChar (sep : Char) : List Char → List (List Char)
  | [] => [[]]
  | c :: rest =>
    let r := pySplitChar sep rest
    if c = sep then [] :: r
    else (c :: r.headD []) :: r.tail

/-- Python `s.split("/")`. -/
def pySplitOnSlash (s : String) : List String :=
  (pySplitChar '/' s.toList).map String.mk

/-- Embedding of `Ticker.get_ticker_symbol`.  `TickerError` exceptions are
embedded as `Except.error` carrying the message raised. -/
def get_ticker_symbol (currency_pair exchange_name : String) :
    Except String String :=
  if URLS_keys.contains exchange_name = false then
    Except.error "Exchange %s not supported!"
  else if currency_pair.toList.contains '/' = false then
    Except.error "Currency pair incorrect format.Use xxx/yyy e.g. btc/usd!"
  else
    let pair :=
      if exchange_name = "bittrex" ∨ exchange_name = "poloniex" then
        pyUpper (pyReplace currency_pair "usd" "usdt")
      else currency_pair
    if exchange_name = "bittrex" then
      let parts := pySplitOnSlash pair
      Except.ok ((parts.getD 1 "") ++ "-" ++ (parts.getD 0 ""))
    else if exchange_name = "poloniex" then
      let parts := pySplitOnSlash pair
      Except.ok ((parts.getD 1 "") ++ "_" ++ (parts.getD 0 ""))
    else if exchange_name = "btc-e" then Except.ok (pyReplace pair "/" "_")
    else if exchange_name = "coinbase" then Except.ok (pyReplace pair "/" "-")
    else Except.ok (pyReplace pair "/" "")

/-- Outcome of one exchange's HTTP fan-out request after the validity check of
`Ticker.price` (HTTP 200 within the timeout, parseable JSON body):
`invalidError` records whether the body carries an `error` field containing
`"invalid"`, and `price`/`volume` are the fields extracted through the
per-exchange `RESPONSES` lookup table. -/
structure ExchResponse where
  invalidError : Bool
  price : ℚ
  volume : ℚ
deriving DecidableEq

/-- Quotes surviving the fan-in of `Ticker.price`: responses that completed
validly (`none` entries are exchanges that errored, timed out or returned an
unparseable body and were dropped) and whose body does not flag an invalid
market. -/
def survivingQuotes (responses : List (Option ExchResponse)) :
    List ExchResponse :=
  (responses.filterMap id).filter (fun r => !r.invalidError)

/-- Embedding of the fan-in of `Ticker.price`: raise `TickerError` when no
exchange yielded a usable quote, else return
`np.average(prices, weights=volumes) = Σ(price·volume) / Σ(volume)`. -/
def ticker_price (responses : List (Option ExchResponse)) : Except String ℚ :=
  let prices := survivingQuotes responses
  if prices.length = 0 then Except.error "Could not fetch any %s price."
  else
    Except.ok (((prices.map (fun r => r.price * r.volume)).sum) /
      ((prices.map (fun r => r.volume)).sum))

/-- Discriminator for the embedded `TickerError`. -/
def exceptIsError {ε α : Type} : Except ε α → Bool
  | Except.error _ => true
  | Except.ok _ => false

/-! ## Sample data for witnesses and counterexamples -/

/-- A concrete operation payload, of op type `"vote"`. -/
def sample_op : OpData :=
  { op_type := "vote", op := "body", timestamp := "2016-01-01T00:00:00",
    trx_id := "ab12" }

/-- A synthetic account log of `n` operations at indices `0, …, n - 1`. -/
def sample_ledger (n : Nat) : Ledger :=
  { numOps := n, opAt := fun _ => sample_op }


/-! ## Properties of the history replayer and converter -/

theorem virtual_op_count_eq (L : Ledger) : virtual_op_count L = L.numOps - 1 := by
  unfold virtual_op_count get_account_history
  norm_num
  cases hn : L.numOps with
  | zero => simp
  | succ m =>
    have h2 : m + 1 - (m + 1 - 1) = 1 := by omega
    simp [h2, List.range']

theorem get_account_history_nat (L : Ledger) (i limit : Nat) :
    get_account_history L (i : Int) limit =
      (List.range' (i - limit) (min (i + 1) L.numOps - (i - limit))).map
        (fun k => (k, L.opAt k)) := by
  unfold get_account_history
  have h0 : ¬ ((i : Int) < 0) := by omega
  have h1 : ((i : Int) - (limit : Int)).toNat = i - limit := by omega
  have h2 : ((i : Int) + 1).toNat = i + 1 := by omega
  simp only [if_neg h0, h1, h2]

theorem range'_glue (s m n : Nat) :
    List.range' s m ++ List.range' (s + m) n = List.range' s (m + n) := by
  have h := List.range'_append s m n 1
  rw [Nat.add_comm m n]
  simp only [Nat.one_mul] at h
  exact h

theorem yieldSeq_glue (L : Ledger) (f : FilterBy) (s m n : Nat) :
    yieldSeq L f s m ++ yieldSeq L f (s + m) n = yieldSeq L f s (m + n) := by
  unfold yieldSeq
  rw [← range'_glue, List.filterMap_append]

theorem filterMap_ite_some {α β : Type} (g : α → β) (q : α → Bool) (l : List α) :
    l.filterMap (fun a => if q a then some (g a) else Option.none) =
      (l.filter q).map g := by
  induction l with
  | nil => rfl
  | cons a l ih =>
    by_cases h : q a <;>
      simp [List.filterMap_cons, List.filter_cons, h, ih]

theorem yieldSeq_len_one (L : Ledger) (f : FilterBy) (w : Nat) :
    yieldSeq L f w 1 =
      if filterYields f (L.opAt w).op_type then [construct_op w (L.opAt w)]
      else [] := by
  unfold yieldSeq
  by_cases h : filterYields f (L.opAt w).op_type <;>
    simp [List.range', List.filterMap_cons, h]

theorem yieldSeq_cons (L : Ledger) (f : FilterBy) (w n : Nat) :
    yieldSeq L f w (n + 1) =
      (if filterYields f (L.opAt w).op_type then [construct_op w (L.opAt w)]
       else []) ++ yieldSeq L f (w + 1) n := by
  rw [← yieldSeq_len_one, yieldSeq_glue, Nat.add_comm 1 n]

theorem processBatch_all_lt (L : Ledger) (mi : Nat) (f : FilterBy) :
    ∀ len w, w + len ≤ mi →
    processBatch mi f ((List.range' w len).map (fun k => (k, L.opAt k))) =
      (yieldSeq L f w len, false) := by
  intro len
  induction len with
  | zero => intro w _; rfl
  | succ n ih =>
    intro w hw
    have hr : List.range' w (n + 1) = w :: List.range' (w + 1) n := by
      simp [List.range']
    rw [hr, List.map_cons]
    simp only [processBatch]
    have hlt : ¬ (mi ≤ w) := by omega
    rw [if_neg hlt]
    rw [ih (w + 1) (by omega)]
    rw [yieldSeq_cons]
    by_cases h : filterYields f (L.opAt w).op_type <;> simp [h]

theorem processBatch_stop (L : Ledger) (mi : Nat) (f : FilterBy) :
    ∀ len w, w ≤ mi → mi < w + len →
    processBatch mi f ((List.range' w len).map (fun k => (k, L.opAt k))) =
      (yieldSeq L f w (mi - w), true) := by
  intro len
  induction len with
  | zero => intro w h1 h2; omega
  | succ n ih =>
    intro w h1 h2
    have hr : List.range' w (n + 1) = w :: List.range' (w + 1) n := by
      simp [List.range']
    rw [hr, List.map_cons]
    simp only [processBatch]
    by_cases hw : mi ≤ w
    · have hww : w = mi := by omega
      rw [if_pos hw]
      simp [hww, yieldSeq]
    · rw [if_neg hw]
      rw [ih (w + 1) (by omega) (by omega)]
      have hmw : mi - w = (mi - (w + 1)) + 1 := by omega
      rw [hmw, yieldSeq_cons]
      by_cases h : filterYields f (L.opAt w).op_type <;> simp [h]

theorem historyLoop_tail (L : Ledger) (f : FilterBy) (mi si b : Nat)
    (hmi : mi < L.numOps) :
    ∀ fuel w, si < w + b → w ≤ mi → mi < w + fuel →
    ∃ c, historyLoop L f mi si (b + 1) fuel (w + b) =
      some (yieldSeq L f w (mi - w), c) := by
  intro fuel
  induction fuel with
  | zero => intro w h1 h2 h3; omega
  | succ n ih =>
    intro w h1 h2 h3
    simp only [historyLoop]
    have hne : ¬ (w + b = si) := by omega
    rw [if_neg hne]
    have hb : b + 1 - 1 = b := by omega
    rw [hb]
    rw [get_account_history_nat]
    have hlo : w + b - b = w := by omega
    rw [hlo]
    by_cases hstop : mi ≤ w + b
    · have hup : mi < w + (min (w + b + 1) L.numOps - w) := by
        rcases Nat.le_total (w + b + 1) L.numOps with hm | hm
        · rw [min_eq_left hm]; omega
        · rw [min_eq_right hm]; omega
      rw [processBatch_stop L mi f _ w h2 hup]
      exact ⟨1, rfl⟩
    · have hns : w + b + 1 ≤ L.numOps := by omega
      have hmin : min (w + b + 1) L.numOps = w + b + 1 := min_eq_left hns
      rw [hmin]
      have hlen2 : w + b + 1 - w = b + 1 := by omega
      rw [hlen2]
      rw [processBatch_all_lt L mi f (b + 1) w (by omega)]
      obtain ⟨c, hc⟩ := ih (w + (b + 1)) (by omega) (by omega) (by omega)
      have harg : w + b + (b + 1) = (w + (b + 1)) + b := by omega
      rw [harg, hc]
      refine ⟨c + 1, ?_⟩
      dsimp only
      rw [yieldSeq_glue]
      have hfin : b + 1 + (mi - (w + (b + 1))) = mi - w := by omega
      rw [hfin]
      rfl

theorem historyB_spec (L : Ledger) (f : FilterBy) (start b fuel : Nat)
    (h1 : start ≤ virtual_op_count L)
    (h2 : virtual_op_count L < start + fuel) :
    ∃ c, historyB L f start (b + 1) fuel =
      some (yieldSeq L f start (virtual_op_count L - start), c) := by
  have hve := virtual_op_count_eq L
  by_cases hz : virtual_op_count L = 0
  · refine ⟨0, ?_⟩
    simp only [historyB, hz]
    have hs : start = 0 := by omega
    rw [hs]
    rfl
  · have hmlt : virtual_op_count L < L.numOps := by omega
    simp only [historyB]
    rw [if_neg hz]
    cases fuel with
    | zero => omega
    | succ n =>
      simp only [historyLoop, if_true]
      rw [get_account_history_nat]
      have hlo : start + (b + 1) - (b + 1) = start := by omega
      rw [hlo]
      by_cases hstop : virtual_op_count L ≤ start + (b + 1)
      · have hup : virtual_op_count L <
            start + (min (start + (b + 1) + 1) L.numOps - start) := by
          rcases Nat.le_total (start + (b + 1) + 1) L.numOps with hm | hm
          · rw [min_eq_left hm]; omega
          · rw [min_eq_right hm]; omega
        rw [processBatch_stop L (virtual_op_count L) f _ start h1 hup]
        exact ⟨1, rfl⟩
      · have hns : start + (b + 1) + 1 ≤ L.numOps := by omega
        rw [min_eq_left hns]
        have hlen2 : start + (b + 1) + 1 - start = b + 2 := by omega
        rw [hlen2]
        rw [processBatch_all_lt L (virtual_op_count L) f (b + 2) start (by omega)]
        obtain ⟨c, hc⟩ := historyLoop_tail L f (virtual_op_count L)
          (start + (b + 1)) b hmlt n (start + (b + 2))
          (by omega) (by omega) (by omega)
        have harg : start + (b + 1) + (b + 1) = (start + (b + 2)) + b := by omega
        rw [harg, hc]
        refine ⟨c + 1, ?_⟩
        dsimp only
        rw [yieldSeq_glue]
        have hfin : b + 2 + (virtual_op_count L - (start + (b + 2))) =
            virtual_op_count L - start := by omega
        rw [hfin]
        rfl

theorem yieldSeq_none_eq (L : Ledger) (w len : Nat) :
    yieldSeq L FilterBy.none w len =
      (List.range' w len).map (fun k => construct_op k (L.opAt k)) := by
  unfold yieldSeq
  rw [filterMap_ite_some]
  have h : (fun k => filterYields FilterBy.none (L.opAt k).op_type) =
      fun _ => true := rfl
  rw [h, List.filter_true]

theorem yieldSeq_str_eq (L : Ledger) (tag : String) (w len : Nat) :
    yieldSeq L (FilterBy.str tag) w len =
      (yieldSeq L FilterBy.none w len).filter (fun o => o.op_type == tag) := by
  rw [yieldSeq_none_eq, List.filter_map]
  unfold yieldSeq
  rw [filterMap_ite_some]
  rfl

theorem yieldSeq_list_eq (L : Ledger) (tags : List String) (w len : Nat) :
    yieldSeq L (FilterBy.list tags) w len =
      (yieldSeq L FilterBy.none w len).filter
        (fun o => tags.contains o.op_type) := by
  rw [yieldSeq_none_eq, List.filter_map]
  unfold yieldSeq
  rw [filterMap_ite_some]
  rfl

theorem yieldSeq_set_eq (L : Ledger) (tags : List String) (w len : Nat) :
    yieldSeq L (FilterBy.set tags) w len = [] := by
  unfold yieldSeq
  rw [filterMap_ite_some]
  have h : (fun k => filterYields (FilterBy.set tags) (L.opAt k).op_type) =
      fun _ => false := rfl
  rw [h, List.filter_false, List.map_nil]

theorem historyB_voc_zero (L : Ledger) (f : FilterBy) (start bs fuel : Nat)
    (h : virtual_op_count L = 0) :
    historyB L f start bs fuel = some ([], 0) := by
  simp [historyB, h]

/-- Claim C1, amended.  For every account log, every start not past the
snapshot, and every batch size, the indices of the operations yielded by one
`history` invocation are exactly the contiguous range
`[start, maxIndexSnapshot)`, each index exactly once, in increasing order,
regardless of batch boundaries.  Here `maxIndexSnapshot = virtual_op_count`
is the INDEX of the newest operation (`N - 1` for `N` operations), so for
`start = 0` the yielded index set is `{0, …, N - 2}`, not `{0, …, N - 1}`
as the claim states. -/
theorem replay_yields_contiguous_range (L : Ledger) (start b fuel : Nat)
    (h1 : start ≤ virtual_op_count L)
    (h2 : virtual_op_count L < start + fuel) :
    (historyB L FilterBy.none start (b + 1) fuel).map
        (fun r => r.1.map Operation.index) =
      some (List.range' start (virtual_op_count L - start)) := by
  obtain ⟨c, hc⟩ := historyB_spec L FilterBy.none start b fuel h1 h2
  rw [hc, Option.map_some']
  dsimp only
  rw [yieldSeq_none_eq, List.map_map]
  have h : (Operation.index ∘ fun k => construct_op k (L.opAt k)) = id := rfl
  rw [h, List.map_id]

theorem replay_yields_contiguous_range_witness :
    0 ≤ virtual_op_count (sample_ledger 3) ∧
    virtual_op_count (sample_ledger 3) < 0 + 3 ∧
    (historyB (sample_ledger 3) FilterBy.none 0 1 3).map
        (fun r => r.1.map Operation.index) =
      some (List.range' 0 (virtual_op_count (sample_ledger 3) - 0)) :=
  ⟨Nat.zero_le _, by decide,
    replay_yields_contiguous_range (sample_ledger 3) 0 0 3 (by decide) (by decide)⟩

/-- Counterexample to claim C1 as stated: a synthetic ledger with `N = 2`
operations (indices 0 and 1) replayed from `start = 0` yields only index 0;
the newest operation is consumed by the `index >= max_index` terminal check
and never yielded, so the yielded set is not `{0, …, N - 1} = {0, 1}`. -/
theorem replay_misses_newest_op :
    (history (sample_ledger 2) FilterBy.none 0 5).map
        (fun r => r.1.map Operation.index) = some [0] ∧
    some [0] ≠ some (List.range 2) := by
  exact ⟨by decide, by decide⟩

/-- Claim C4.  For every account, filter, `take` and fuel, `history2`
yields exactly the same result (same operation sequence and same number of
batch fetches) as `history` with the same filter and
`start = max(0, operationCount - take)`. -/
theorem history2_eq_history_clamped (L : Ledger) (f : FilterBy)
    (take fuel : Nat) :
    history2 L f take fuel =
      history L f (max 0 ((virtual_op_count L : Int) - (take : Int))).toNat
        fuel := by
  simp only [history2]
  have h : (if ((virtual_op_count L : Int) - (take : Int)) < 0 then (0 : Int)
      else ((virtual_op_count L : Int) - (take : Int))) =
      max 0 ((virtual_op_count L : Int) - (take : Int)) := by
    split <;> omega
  rw [h]

/-- Claim C5, amended.  `history` applies `filter_by` per item before
yielding: with no filter every in-range operation is yielded; with a single
string tag exactly the in-range operations whose `op_type` equals the tag
are yielded, and with a Python *list* of tags exactly those whose `op_type`
is a member — in both cases the yielded sequence equals the reference filter
applied to the full unfiltered sequence (so in particular the counts match).
With a Python *set* of tags (the claim's wording), however, the code's
`type(filter_by) is list` / `is str` checks both fail and nothing at all is
yielded. -/
theorem replay_filter_modes (L : Ledger) (start b fuel : Nat)
    (tag : String) (tags : List String)
    (h1 : start ≤ virtual_op_count L)
    (h2 : virtual_op_count L < start + fuel) :
    (∃ ops c c', historyB L FilterBy.none start (b + 1) fuel = some (ops, c) ∧
       historyB L (FilterBy.str tag) start (b + 1) fuel =
         some (ops.filter (fun o => o.op_type == tag), c')) ∧
    (∃ ops c c', historyB L FilterBy.none start (b + 1) fuel = some (ops, c) ∧
       historyB L (FilterBy.list tags) start (b + 1) fuel =
         some (ops.filter (fun o => tags.contains o.op_type), c')) ∧
    (∃ c, historyB L (FilterBy.set tags) start (b + 1) fuel =
       some ([], c)) := by
  obtain ⟨c0, hc0⟩ := historyB_spec L FilterBy.none start b fuel h1 h2
  obtain ⟨c1, hc1⟩ := historyB_spec L (FilterBy.str tag) start b fuel h1 h2
  obtain ⟨c2, hc2⟩ := historyB_spec L (FilterBy.list tags) start b fuel h1 h2
  obtain ⟨c3, hc3⟩ := historyB_spec L (FilterBy.set tags) start b fuel h1 h2
  refine ⟨⟨_, c0, c1, hc0, ?_⟩, ⟨_, c0, c2, hc0, ?_⟩, ⟨c3, ?_⟩⟩
  · rw [hc1, yieldSeq_str_eq]
  · rw [hc2, yieldSeq_list_eq]
  · rw [hc3, yieldSeq_set_eq]

theorem replay_filter_modes_witness :
    0 ≤ virtual_op_count (sample_ledger 3) ∧
    virtual_op_count (sample_ledger 3) < 0 + 3 ∧
    ((∃ ops c c',
        historyB (sample_ledger 3) FilterBy.none 0 1 3 = some (ops, c) ∧
        historyB (sample_ledger 3) (FilterBy.str "vote") 0 1 3 =
          some (ops.filter (fun o => o.op_type == "vote"), c')) ∧
     (∃ ops c c',
        historyB (sample_ledger 3) FilterBy.none 0 1 3 = some (ops, c) ∧
        historyB (sample_ledger 3) (FilterBy.list ["vote"]) 0 1 3 =
          some (ops.filter (fun o => ["vote"].contains o.op_type), c')) ∧
     (∃ c, historyB (sample_ledger 3) (FilterBy.set ["vote"]) 0 1 3 =
        some ([], c))) :=
  ⟨Nat.zero_le _, by decide,
    replay_filter_modes (sample_ledger 3) 0 0 3 "vote" ["vote"]
      (by decide) (by decide)⟩

/-- Counterexample to claim C5 as stated: on a ledger whose in-range
operations all have `op_type = "vote"`, `history` with the set `{"vote"}`
yields 0 operations while the reference filter over the unfiltered sequence
keeps 2. -/
theorem replay_set_filter_yields_nothing :
    (history (sample_ledger 3) (FilterBy.set ["vote"]) 0 5).map
        (fun r => r.1.length) = some 0 ∧
    (history (sample_ledger 3) FilterBy.none 0 5).map
        (fun r => (r.1.filter (fun o => o.op_type == "vote")).length) =
      some 2 ∧
    (0 : Nat) ≠ 2 :=
  ⟨by decide, by decide, by decide⟩

/-- Claim C6.  For every account with `operationCount = 0`, `history`
yields the empty sequence with zero batch fetches beyond the count check
(the second component of the result counts `get_account_history` calls made
by the loop) and never raises: the result is `some` for every fuel, i.e. the
generator returns immediately rather than failing or diverging. -/
theorem replay_empty_account (L : Ledger) (f : FilterBy) (start fuel : Nat)
    (h : virtual_op_count L = 0) :
    history L f start fuel = some ([], 0) := by
  unfold history
  exact historyB_voc_zero L f start 1000 fuel h

theorem replay_empty_account_witness :
    virtual_op_count (sample_ledger 0) = 0 ∧
    history (sample_ledger 0) FilterBy.none 0 0 = some ([], 0) :=
  ⟨by decide, replay_empty_account (sample_ledger 0) FilterBy.none 0 0 (by decide)⟩

/-- Claim C10.  For every account whose entire history is a single
operation carrying index 0, `virtual_op_count` returns 0 and `history`
yields the empty sequence without issuing any batch fetch — such an account
is indistinguishable at the replay interface from an account with no history
at all. -/
theorem single_op_account_like_empty (L L' : Ledger)
    (h1 : L.numOps = 1) (h0 : L'.numOps = 0) :
    virtual_op_count L = 0 ∧
    ∀ f start fuel, history L f start fuel = some ([], 0) ∧
      history L f start fuel = history L' f start fuel := by
  have hv : virtual_op_count L = 0 := by rw [virtual_op_count_eq, h1]
  have hv' : virtual_op_count L' = 0 := by rw [virtual_op_count_eq, h0]
  refine ⟨hv, fun f start fuel => ?_⟩
  have e1 : history L f start fuel = some ([], 0) :=
    historyB_voc_zero L f start 1000 fuel hv
  have e2 : history L' f start fuel = some ([], 0) :=
    historyB_voc_zero L' f start 1000 fuel hv'
  exact ⟨e1, e1.trans e2.symm⟩

theorem single_op_account_like_empty_witness :
    (sample_ledger 1).numOps = 1 ∧ (sample_ledger 0).numOps = 0 ∧
    virtual_op_count (sample_ledger 1) = 0 ∧
    history (sample_ledger 1) (FilterBy.str "vote") 7 2 = some ([], 0) ∧
    history (sample_ledger 1) (FilterBy.str "vote") 7 2 =
      history (sample_ledger 0) (FilterBy.str "vote") 7 2 :=
  ⟨rfl, rfl,
    (single_op_account_like_empty (sample_ledger 1) (sample_ledger 0) rfl rfl).1,
    ((single_op_account_like_empty (sample_ledger 1) (sample_ledger 0) rfl rfl).2
      (FilterBy.str "vote") 7 2).1,
    ((single_op_account_like_empty (sample_ledger 1) (sample_ledger 0) rfl rfl).2
      (FilterBy.str "vote") 7 2).2⟩

/-- Claim C9.  For every fixed nonzero cached `steem_per_mvests` value,
`vests_to_power` and `sp_to_vests` are mutual inverses under exact rational
arithmetic. -/
theorem vests_power_roundtrip (spm v sp : ℚ) (h : spm ≠ 0) :
    vests_to_power spm (sp_to_vests spm sp) = sp ∧
    sp_to_vests spm (vests_to_power spm v) = v := by
  unfold vests_to_power sp_to_vests
  constructor
  · field_simp
  · field_simp

theorem vests_power_roundtrip_witness :
    (3 : ℚ) ≠ 0 ∧ vests_to_power 3 (sp_to_vests 3 5) = 5 ∧
    sp_to_vests 3 (vests_to_power 3 7) = 7 :=
  ⟨by norm_num, (vests_power_roundtrip 3 7 5 (by norm_num)).1,
    (vests_power_roundtrip 3 7 5 (by norm_num)).2⟩

/-- Claim C2, amended.  `sp_to_rshares` computes
`vestingShares = int(sp_to_vests(sp) * 1e6)` (truncation toward zero),
`power = ((votingPower * votePct) / 10000) / 200 + 1` and
`rshares = power * vestingShares / 10000`, where — unlike the claim's final
clause — every `/` is Python 3 true division with no intermediate
truncation; the only truncation is the `int()` conversion producing
`vestingShares`.  At the default arguments `power = 51` exactly. -/
theorem sp_to_rshares_formula (spm sp vp pct : ℚ) :
    sp_to_rshares spm sp vp pct =
      (vp * pct / 10000 / 200 + 1) *
        ((pyInt (sp * 1000000 / spm * 1000000) : ℤ) : ℚ) / 10000 ∧
    sp_to_rshares spm sp 10000 10000 =
      51 * ((pyInt (sp * 1000000 / spm * 1000000) : ℤ) : ℚ) / 10000 := by
  constructor
  · rfl
  · unfold sp_to_rshares sp_to_vests
    norm_num

/-- Counterexample to claim C2's truncation clause: at
`steem_per_mvests = 1e6`, `sp = 1e-6` (vesting shares = 1) the code returns
`51 / 10000`, whereas the integer-truncating evaluation the claim demands
returns `0`. -/
theorem sp_to_rshares_not_truncating :
    sp_to_rshares 1000000 (1 / 1000000) 10000 10000 = 51 / 10000 ∧
    sp_to_rshares_trunc 1000000 (1 / 1000000) 10000 10000 = 0 ∧
    (51 / 10000 : ℚ) ≠ ((0 : ℤ) : ℚ) := by
  refine ⟨?_, ?_, by norm_num⟩
  · norm_num [sp_to_rshares, sp_to_vests, pyInt]
  · norm_num [sp_to_rshares_trunc, sp_to_vests, pyInt, Int.tdiv]

/-- Claim C3, amended.  `rshares_2_weight` computes
`(2^64 - 1) * rshares / (2 * CONTENT_CONSTANT + rshares)`; it returns 0 at
`rshares = 0`, is non-decreasing on `rshares ≥ 0`, and is strictly below
`2^64 - 1` for every finite `rshares ≥ 0` (the claim's unrestricted "every
finite rshares" fails for negative arguments). -/
theorem rshares_2_weight_props :
    rshares_2_weight 0 = 0 ∧
    (∀ a b : ℚ, 0 ≤ a → a ≤ b → rshares_2_weight a ≤ rshares_2_weight b) ∧
    (∀ r : ℚ, 0 ≤ r → rshares_2_weight r < 2 ^ 64 - 1) := by
  refine ⟨?_, ?_, ?_⟩
  · simp [rshares_2_weight]
  · intro a b ha hab
    unfold rshares_2_weight CONTENT_CONSTANT
    rw [div_le_div_iff₀ (by linarith) (by linarith)]
    nlinarith [mul_le_mul_of_nonneg_left hab
      (by norm_num : (0 : ℚ) ≤ ((2 : ℚ) ^ 64 - 1) * 2 * 2000000000000)]
  · intro r hr
    unfold rshares_2_weight CONTENT_CONSTANT
    rw [div_lt_iff₀ (by linarith)]
    nlinarith

theorem rshares_2_weight_props_witness :
    rshares_2_weight 0 = 0 ∧
    ((0 : ℚ) ≤ 3 ∧ (3 : ℚ) ≤ 5 ∧ rshares_2_weight 3 ≤ rshares_2_weight 5) ∧
    ((0 : ℚ) ≤ 7 ∧ rshares_2_weight 7 < 2 ^ 64 - 1) :=
  ⟨rshares_2_weight_props.1,
    ⟨by norm_num, by norm_num,
      rshares_2_weight_props.2.1 3 5 (by norm_num) (by norm_num)⟩,
    ⟨by norm_num, rshares_2_weight_props.2.2 7 (by norm_num)⟩⟩

/-- Counterexample to claim C3 as stated: at the finite input
`rshares = -8e12` the denominator `2 * CONTENT_CONSTANT + rshares` is
negative and the result equals `2 * (2^64 - 1)`, which is not strictly less
than `2^64 - 1`. -/
theorem rshares_2_weight_exceeds_bound_on_negative :
    rshares_2_weight (-8000000000000) = 2 * ((2 : ℚ) ^ 64 - 1) ∧
    ¬ rshares_2_weight (-8000000000000) < (2 : ℚ) ^ 64 - 1 := by
  have h : rshares_2_weight (-8000000000000) = 2 * ((2 : ℚ) ^ 64 - 1) := by
    unfold rshares_2_weight CONTENT_CONSTANT
    norm_num
  refine ⟨h, ?_⟩
  rw [h]
  norm_num

/-- Claim C7.  For every list of per-exchange outcomes, `ticker_price`
raises `TickerError` exactly when zero exchanges yielded a usable quote, and
otherwise returns the volume-weighted average price
`Σ(price·volume) / Σ(volume)` over the surviving quotes; in particular
quotes `(10, 1)` and `(20, 3)` give `17.5`, one surviving quote `(100, 5)`
among six exchanges gives `100`, and six failures raise the error. -/
theorem ticker_price_vwap (rs : List (Option ExchResponse))
    (h : survivingQuotes rs ≠ []) :
    ticker_price rs =
      Except.ok ((((survivingQuotes rs).map (fun r => r.price * r.volume)).sum) /
        (((survivingQuotes rs).map (fun r => r.volume)).sum)) ∧
    (∀ rs', exceptIsError (ticker_price rs') = true ↔
      survivingQuotes rs' = []) ∧
    ticker_price [some ⟨false, 10, 1⟩, some ⟨false, 20, 3⟩] =
      Except.ok (35 / 2) ∧
    ticker_price [Option.none, Option.none, Option.none, Option.none,
      Option.none, some ⟨false, 100, 5⟩] = Except.ok 100 ∧
    exceptIsError (ticker_price [Option.none, Option.none, Option.none,
      Option.none, Option.none, Option.none]) = true := by
  refine ⟨?_, ?_, ?_, ?_, by decide⟩
  · simp only [ticker_price]
    rw [if_neg (fun hh => h (List.length_eq_zero.mp hh))]
  · intro rs'
    simp only [ticker_price]
    by_cases hq : (survivingQuotes rs').length = 0
    · simp [hq, exceptIsError, List.length_eq_zero.mp hq]
    · simp only [if_neg hq, exceptIsError]
      simp [← List.length_eq_zero, hq]
  · norm_num [ticker_price, survivingQuotes, List.filterMap_cons,
      List.filter_cons]
  · norm_num [ticker_price, survivingQuotes, List.filterMap_cons,
      List.filter_cons]

theorem ticker_price_vwap_witness :
    survivingQuotes [some ⟨false, 2, 1⟩] ≠ [] ∧
    ticker_price [some ⟨false, 2, 1⟩] =
      Except.ok ((((survivingQuotes [some ⟨false, 2, 1⟩]).map
          (fun r => r.price * r.volume)).sum) /
        (((survivingQuotes [some ⟨false, 2, 1⟩]).map
          (fun r => r.volume)).sum)) :=
  ⟨by decide, (ticker_price_vwap [some ⟨false, 2, 1⟩] (by decide)).1⟩

/-- Claim C8.  `get_ticker_symbol` raises `TickerError` exactly when the
pair lacks a `/` separator or the exchange is unknown; for well-formed
inputs it returns the exchange-specific symbol, in particular
`"USDT-BTC"` for `("btc/usd", "bittrex")` and `"USDT_BTC"` for
`("btc/usd", "poloniex")`, while `("abc", "coinbase")` fails. -/
theorem get_ticker_symbol_spec :
    (∀ pair exch : String,
      exceptIsError (get_ticker_symbol pair exch) =
        (!(URLS_keys.contains exch) || !(pair.toList.contains '/'))) ∧
    get_ticker_symbol "btc/usd" "bittrex" = Except.ok "USDT-BTC" ∧
    get_ticker_symbol "btc/usd" "poloniex" = Except.ok "USDT_BTC" ∧
    exceptIsError (get_ticker_symbol "abc" "coinbase") = true := by
  refine ⟨?_, rfl, rfl, by decide⟩
  intro pair exch
  simp only [get_ticker_symbol]
  cases hk : URLS_keys.contains exch with
  | false => simp [exceptIsError]
  | true =>
    cases hs : pair.toList.contains '/' with
    | false => simp [exceptIsError]
    | true =>
      rw [if_neg (by simp), if_neg (by simp)]
      repeat' split
      all_goals rfl

end Steemtools
